import Mathlib

/-!
Verification development for the `procon-gardener` archival pipeline
(src/main.go). The Go program fetches a user's AtCoder submissions from a
paginated API, filters them down to accepted and not-yet-archived ones,
sorts them by submission time, scrapes each submission page, writes the
extracted source code to a deterministic directory, and optionally creates
one git commit per written file.

The definitions below are a shallow embedding of that program:
  - filesystem and network effects are passed in as explicit oracles
    (a `String → Bool` directory-existence oracle, an
    `Int → List AtCoderSubmission` API page oracle, a scrape oracle);
  - machine integers (Go `int`, `int64`) are modelled as `Int`
    (none of the verified claims exercise overflow);
  - Go `float64` (the `point` field, unused by every claim) is `Float`;
  - the unbounded pagination loop takes explicit fuel;
  - wall-clock time for the rate limiter is modelled in integer
    milliseconds.
-/

/-- Mirror of the Go struct `AtCoderSubmission` (src/main.go lines 34–45). -/
structure AtCoderSubmission where
  id : Int
  epochSecond : Int
  problemID : String
  contestID : String
  userID : String
  language : String
  point : Float
  length : Int
  result : String
  executionTime : Int

/-- Default record used only where Go indexes a list the loop has already
proved nonempty (`ss[len(ss)-1]`). -/
def defaultSubmission : AtCoderSubmission :=
  ⟨0, 0, "", "", "", "", 0.0, 0, "", 0⟩

/-- Possible outcomes of `os.Stat(path)` as far as `dirExists` can
distinguish them: success (with the is-directory bit), an error satisfying
`os.IsNotExist`, or any other error (e.g. `EACCES`). -/
inductive StatResult where
  | ok (isDir : Bool)
  | notExist
  | otherError
deriving DecidableEq

/-- Shallow embedding of `dirExists` (src/main.go lines 47–53).

```go
func dirExists(path string) bool {
    info, err := os.Stat(path)
    if err != nil && os.IsNotExist(err) {
        return false
    }
    return info.IsDir()
}
```

When `os.Stat` fails with an error that is not not-exist, the code falls
through to `info.IsDir()` with `info` nil — a nil-pointer dereference
panic. That panic is modelled as `none`; the two returning paths are
`some`. -/
def dirExists : StatResult → Option Bool
  | .ok isDir => some isDir
  | .notExist => some false
  | .otherError => none

/-- Models Go's `filepath.Join` on Unix for clean relative components:
empty components are dropped and the rest are joined with `/`. (Go
additionally runs `Clean`, which is the identity on the clean component
lists this program joins.) -/
def filepathJoin (parts : List String) : String :=
  String.intercalate "/" (parts.filter (fun p => !p.isEmpty))

/-- Mirror of `directoryPath` (src/main.go lines 275–277):
`filepath.Join(repoPath, s.ContestID, s.ProblemID, strconv.Itoa(s.ID))`. -/
def directoryPath (repoPath : String) (s : AtCoderSubmission) : String :=
  filepathJoin [repoPath, s.contestID, s.problemID, toString s.id]

/-- Mirror of `filterNotAC` (src/main.go lines 265–273): keep exactly the
submissions whose `Result` field is `"AC"`, in input order. -/
def filterNotAC (ss : List AtCoderSubmission) : List AtCoderSubmission :=
  ss.filter (fun s => s.result == "AC")

/-- Mirror of `filterDirsExist` (src/main.go lines 279–287): keep exactly
the submissions whose archive directory does not exist yet. The filesystem
is an oracle `exist : String → Bool` giving the boolean `dirExists` returns
on paths where `os.Stat` does not fail with a non-not-exist error. -/
def filterDirsExist (exist : String → Bool) (repoPath : String)
    (ss : List AtCoderSubmission) : List AtCoderSubmission :=
  ss.filter (fun s => !exist (directoryPath repoPath s))

/-- The Go prefix table of `languageToFileName` (src/main.go lines 78–84).
Go iterates this map in unspecified order; the five keys are pairwise
non-prefixes of one another, so at most one entry can match a given label
and the iteration order is immaterial. -/
def prefixTable : List (String × String) :=
  [("C++", ".cpp"), ("Bash", ".sh"), ("Common Lisp", ".lisp"),
   ("Python", ".py"), ("PyPy", ".py")]

/-- The Go exact-match table of `languageToFileName`
(src/main.go lines 91–131). Exact keys are pairwise distinct, so Go's
unspecified map iteration order is immaterial. -/
def nameTable : List (String × String) :=
  [("C", ".c"), ("C#", ".cs"), ("Clojure", ".clj"), ("D", ".d"),
   ("Fortran", ".f08"), ("Go", ".go"), ("Haskell", ".hs"),
   ("JavaScript", ".js"), ("Java", ".java"), ("OCaml", ".ml"),
   ("Pascal", ".pas"), ("Perl", ".pl"), ("PHP", ".php"), ("Ruby", ".rb"),
   ("Scala", ".scala"), ("Scheme", ".scm"), ("Main.txt", ".txt"),
   ("Visual Basic", ".vb"), ("Objective-C", ".m"), ("Swift", ".swift"),
   ("Rust", ".rs"), ("Sed", ".sed"), ("Awk", ".awk"),
   ("Brainfuck", ".bf"), ("Standard ML", ".sml"), ("Crystal", ".cr"),
   ("F#", ".fs"), ("Unlambda", ".unl"), ("Lua", ".lua"),
   ("LuaJIT", ".lua"), ("MoonScript", ".moon"), ("Ceylon", ".ceylon"),
   ("Julia", ".jl"), ("Octave", ".m"), ("Nim", ".nim"),
   ("TypeScript", ".ts"), ("Perl6", ".p6"), ("Kotlin", ".kt"),
   ("COBOL", ".cob")]

/-- Characters of a string up to (excluding) the first `(`: the char-level
content of Go's `strings.Split(language, "(")[0]`. -/
def takeUntilParen : List Char → List Char
  | [] => []
  | c :: cs => if c = '(' then [] else c :: takeUntilParen cs

/-- Models Go's `strings.TrimSpace`: drop whitespace from both ends. -/
def trimChars (cs : List Char) : List Char :=
  ((cs.dropWhile Char.isWhitespace).reverse.dropWhile Char.isWhitespace).reverse

/-- Mirror of `languageToFileName` (src/main.go lines 70–140): truncate the
label before the first `(`, trim surrounding whitespace, try the prefix
table (`strings.HasPrefix`), then the exact table, and fall back to
`Main.txt` (the Go code logs the unknown label; no error is returned). -/
def languageToFileName (language : String) : String :=
  let name := "Main"
  let cleaned := trimChars (takeUntilParen language.data)
  match prefixTable.find? (fun pe => pe.1.data.isPrefixOf cleaned) with
  | some pe => name ++ pe.2
  | none =>
    match nameTable.find? (fun ne => ne.1.data == cleaned) with
    | some ne => name ++ ne.2
    | none => name ++ ".txt"

/-- The Go constant `submissionsPerPage` (src/main.go line 31). -/
def submissionsPerPage : Nat := 500

/-- The pagination loop of `fetchSubmissions` (src/main.go lines 247–262),
with the HTTP API abstracted to a page oracle
`api : Int → List AtCoderSubmission` (`from_second` query value ↦ decoded
page) and explicit fuel for the unbounded `for` loop. Returns the list of
`from_second` values actually requested together with the concatenated
records, or `none` if the fuel runs out. On a full page the watermark
advances to `ss[len(ss)-1].EpochSecond`. -/
def fetchSubmissionsLoop (api : Int → List AtCoderSubmission) :
    Nat → Int → Option (List Int × List AtCoderSubmission)
  | 0, _ => none
  | fuel + 1, fromSecond =>
    let ss := api fromSecond
    if ss.length < submissionsPerPage then
      some ([fromSecond], ss)
    else
      match fetchSubmissionsLoop api fuel (ss.getLastD defaultSubmission).epochSecond with
      | none => none
      | some (reqs, rest) => some (fromSecond :: reqs, ss ++ rest)

/-- Mirror of `fetchSubmissions` (src/main.go lines 247–262): run the
pagination loop starting from watermark `0`. -/
def fetchSubmissions (api : Int → List AtCoderSubmission) (fuel : Nat) :
    Option (List Int × List AtCoderSubmission) :=
  fetchSubmissionsLoop api fuel 0

/-- Mirror of the sort in `archiveCmd` (src/main.go lines 301–303):
`sort.Slice(ss, func(i, j int) bool { return ss[i].EpochSecond < ss[j].EpochSecond })`.
Go's `sort.Slice` is an unspecified (unstable) comparison sort; it is
modelled by `mergeSort` and the theorems below use only the two properties
`sort.Slice` guarantees: the result is a permutation of the input and is
sorted with respect to the comparison. -/
def sortByEpochSecond (ss : List AtCoderSubmission) : List AtCoderSubmission :=
  ss.mergeSort (fun a b => a.epochSecond ≤ b.epochSecond)

/-- The list the archive loop iterates over, as computed by `archiveCmd`
(src/main.go lines 299–303): filter to `"AC"`, drop already-archived
directories, then sort ascending by `EpochSecond`. -/
def archiveProcessingOrder (exist : String → Bool) (repoPath : String)
    (ss : List AtCoderSubmission) : List AtCoderSubmission :=
  sortByEpochSecond (filterDirsExist exist repoPath (filterNotAC ss))

/-- The submission detail page URL built in `archiveCmd`
(src/main.go line 310). -/
def submissionUrl (s : AtCoderSubmission) : String :=
  "https://atcoder.jp/contests/" ++ s.contestID ++ "/submissions/" ++ toString s.id

/-- The commit message built in `archiveCmd` (src/main.go line 365):
`fmt.Sprintf("✅ %s %s %dms %s", s.ContestID, s.ProblemID, s.ExecutionTime, u)`. -/
def commitMessage (s : AtCoderSubmission) : String :=
  "✅ " ++ s.contestID ++ " " ++ s.problemID ++ " " ++
    toString s.executionTime ++ "ms " ++ submissionUrl s

/-- Author metadata of the commit created in `archiveCmd`
(src/main.go lines 366–372): name is the submission's user ID, email the
configured address, and the timestamp `time.Unix(s.EpochSecond, 0)` is the
submission's acceptance epoch second. -/
structure CommitInfo where
  authorName : String
  authorEmail : String
  timestamp : Int
  message : String
deriving DecidableEq

/-- Observable filesystem / repository effects of the archive loop. -/
inductive Event where
  | write (path : String) (content : String)
  | commit (c : CommitInfo)
deriving DecidableEq

/-- Errors the modelled part of the loop can raise. -/
inductive ArchiveError where
  | emptyContent
deriving DecidableEq

def Event.isWrite : Event → Bool
  | .write _ _ => true
  | .commit _ => false

def Event.isCommit : Event → Bool
  | .write _ _ => false
  | .commit _ => true

/-- The per-submission body of the archive loop (src/main.go lines
327–376): iterate over the `.linenums` code blocks of the scraped page in
document order. An empty block aborts with `errors.New("Empty string...")`
(the spec's `EmptyContentError`) before anything is written for that
block; a nonempty block is written to
`directoryPath/​languageToFileName(s.Language)` (via `archiveFile`), and,
when `gitExists` (the `dirExists(repoPath/.git)` probe) holds, is staged
and committed with author name `s.UserID`, the configured email, and
timestamp `s.EpochSecond`. Returns the events performed before any abort,
and the abort reason if one occurred. -/
def processBlocks (repoPath userEmail : String) (gitExists : Bool)
    (s : AtCoderSubmission) : List String → List Event × Option ArchiveError
  | [] => ([], none)
  | code :: rest =>
    if code = "" then
      ([], some .emptyContent)
    else
      let fileName := languageToFileName s.language
      let archiveDirPath := directoryPath repoPath s
      let written := Event.write (filepathJoin [archiveDirPath, fileName]) code
      let evs :=
        if gitExists then
          [written, Event.commit ⟨s.userID, userEmail, s.epochSecond, commitMessage s⟩]
        else
          [written]
      let (evsRest, err) := processBlocks repoPath userEmail gitExists s rest
      (evs ++ evsRest, err)

/-- The archive loop over the (already filtered and sorted) submissions
(src/main.go lines 308–377), with scraping abstracted to an oracle
`scrape : AtCoderSubmission → List String` giving the text of each matched
code block. Any error aborts the entire run: later submissions are not
processed. -/
def archiveRun (repoPath userEmail : String) (gitExists : Bool)
    (scrape : AtCoderSubmission → List String) :
    List AtCoderSubmission → List Event × Option ArchiveError
  | [] => ([], none)
  | s :: rest =>
    let (evs, err) := processBlocks repoPath userEmail gitExists s (scrape s)
    match err with
    | some e => (evs, some e)
    | none =>
      let (evsRest, err') := archiveRun repoPath userEmail gitExists scrape rest
      (evs ++ evsRest, err')

/-- Replay write events over a filesystem modelled as a partial map from
paths to file contents (`os.WriteFile` overwrites). -/
def applyEvents (fs : String → Option String) : List Event → String → Option String
  | [] => fs
  | .write p c :: rest => applyEvents (fun q => if q = p then some c else fs q) rest
  | .commit _ :: rest => applyEvents fs rest

/-- Request timing of the scrape loop (src/main.go lines 305–318), in
integer milliseconds. Each iteration first sleeps until
`startTime + 1500 ms` (`time.Sleep(time.Until(startTime.Add(1500 * time.Millisecond)))`),
then issues the HTTP GET, and resets `startTime` to the time at which the
GET returned. `work` gives for each submission the nonnegative duration of
its GET and of the post-processing (parsing, writing, committing) that
follows; `now` is the current clock and `startT` the current `startTime`
(both equal when the loop is entered). Returns the start instant of each
page request. -/
def scrapeRequestStarts (now startT : Int) : List (Nat × Nat) → List Int
  | [] => []
  | (d, p) :: rest =>
    let s := max now (startT + 1500)
    let e := s + (d : Int)
    s :: scrapeRequestStarts (e + (p : Int)) e rest

/-- The scrape phase entered with `startTime := time.Now()` just before the
loop (src/main.go line 305). -/
def scrapeSchedule (t0 : Int) (work : List (Nat × Nat)) : List Int :=
  scrapeRequestStarts t0 t0 work

/-- A record with a given submission ID and epoch second, used to build
mocked API pages. -/
def mkSub (n : Int) : AtCoderSubmission :=
  { defaultSubmission with id := n, epochSecond := n, result := "AC" }

/-- A mocked API page of `len` records with consecutive epoch seconds
`start, start+1, …` (ascending, as the real API returns them). -/
def ascPage (start len : Nat) : List AtCoderSubmission :=
  (List.range len).map (fun i => mkSub ((start : Int) + (i : Int)))

/-- Mocked API for the pagination scenario: pages of sizes 500, 500 and 37,
with epoch seconds 1–500, 501–1000 and 1001–1037. -/
def mockApi : Int → List AtCoderSubmission := fun t =>
  if t = 0 then ascPage 1 500
  else if t = 500 then ascPage 501 500
  else if t = 1000 then ascPage 1001 37
  else []

/-- The concrete submission of the archive-path determinism scenario:
contest `abc100`, problem `abc100_a`, submission ID `12345`. -/
def sampleSubmission : AtCoderSubmission :=
  { defaultSubmission with contestID := "abc100", problemID := "abc100_a", id := 12345 }

/-! ## Helper lemmas -/

/-- The events performed by the per-submission block loop: one write (and,
when the repository is a git repository, one commit) for each block before
the first empty one. -/
theorem processBlocks_events_eq (repoPath userEmail : String) (g : Bool)
    (s : AtCoderSubmission) :
    ∀ blocks : List String,
      (processBlocks repoPath userEmail g s blocks).1 =
        (blocks.takeWhile (fun c => !(c == ""))).flatMap (fun code =>
          if g then
            [Event.write (filepathJoin [directoryPath repoPath s, languageToFileName s.language]) code,
             Event.commit ⟨s.userID, userEmail, s.epochSecond, commitMessage s⟩]
          else
            [Event.write (filepathJoin [directoryPath repoPath s, languageToFileName s.language]) code])
  | [] => rfl
  | code :: rest => by
    by_cases hc : code = ""
    · simp [processBlocks, hc, List.takeWhile]
    · simp only [processBlocks, if_neg hc, List.takeWhile]
      have hb : (code == "") = false := by simpa using hc
      simp [hb, processBlocks_events_eq repoPath userEmail g s rest]

/-- The block loop aborts with the empty-content error exactly when some
block's text is the empty string. -/
theorem processBlocks_err_iff (repoPath userEmail : String) (g : Bool)
    (s : AtCoderSubmission) :
    ∀ blocks : List String,
      (processBlocks repoPath userEmail g s blocks).2 = some .emptyContent ↔ "" ∈ blocks
  | [] => by simp [processBlocks]
  | code :: rest => by
    by_cases hc : code = ""
    · simp [processBlocks, hc]
    · simp [processBlocks, hc, processBlocks_err_iff repoPath userEmail g s rest,
        eq_comm (a := "")]

/-- Replaying a write/commit pair per block leaves the last block's content
at the common path. -/
theorem applyEvents_write_pairs (p : String) (cm : CommitInfo) :
    ∀ (blocks : List String) (fs : String → Option String) (h : blocks ≠ []),
      applyEvents fs
          (blocks.flatMap (fun code => [Event.write p code, Event.commit cm])) p =
        some (blocks.getLast h)
  | [], _, h => absurd rfl h
  | [code], fs, _ => by simp [applyEvents]
  | code :: code' :: rest, fs, _ => by
    rw [List.getLast_cons (by simp)]
    simpa [applyEvents] using
      applyEvents_write_pairs p cm (code' :: rest)
        (fun q => if q = p then some code else fs q) (by simp)

/-- Commit events of the write/commit pair stream: one per block. -/
theorem commits_of_write_pairs (p : String) (cm : CommitInfo) :
    ∀ blocks : List String,
      ((blocks.flatMap (fun code => [Event.write p code, Event.commit cm])).filter
          Event.isCommit).length = blocks.length
  | [] => rfl
  | code :: rest => by
    simp [Event.isCommit, Event.isWrite, commits_of_write_pairs p cm rest]

/-- Write events of the write/commit pair stream: the blocks themselves,
all at the same path. -/
theorem writes_of_write_pairs (p : String) (cm : CommitInfo) :
    ∀ blocks : List String,
      (blocks.flatMap (fun code => [Event.write p code, Event.commit cm])).filter
          Event.isWrite = blocks.map (Event.write p)
  | [] => rfl
  | code :: rest => by
    simp [Event.isCommit, Event.isWrite, writes_of_write_pairs p cm rest]

/-- The first scheduled request does not start before `startTime + 1500`. -/
theorem scrapeRequestStarts_head_le :
    ∀ (work : List (Nat × Nat)) (now startT x : Int),
      (scrapeRequestStarts now startT work).head? = some x → startT + 1500 ≤ x
  | [], _, _, _, h => by simp [scrapeRequestStarts] at h
  | (d, p) :: rest, now, startT, x, h => by
    simp [scrapeRequestStarts] at h
    omega

/-- Consecutive scheduled request starts are at least 1500 ms apart. -/
theorem scrapeRequestStarts_chain :
    ∀ (work : List (Nat × Nat)) (now startT : Int),
      List.Chain' (fun a b => a + 1500 ≤ b) (scrapeRequestStarts now startT work)
  | [], _, _ => by simp [scrapeRequestStarts]
  | (d, p) :: rest, now, startT => by
    rw [scrapeRequestStarts, List.chain'_cons']
    refine ⟨fun y hy => ?_, scrapeRequestStarts_chain rest _ _⟩
    have := scrapeRequestStarts_head_le rest
      (max now (startT + 1500) + (d : Int) + (p : Int))
      (max now (startT + 1500) + (d : Int)) y hy
    omega

/-- A chain with gaps of at least 1500 stretches over at least
`1500 * (length - 1)`. -/
theorem chain_head_getLast :
    ∀ (l : List Int), List.Chain' (fun a b => a + 1500 ≤ b) l → ∀ (h : l ≠ []),
      l.head h + 1500 * ((l.length : Int) - 1) ≤ l.getLast h
  | [], _, h => absurd rfl h
  | [a], _, _ => by simp
  | a :: b :: t, hc, _ => by
    rw [List.chain'_cons] at hc
    have ih := chain_head_getLast (b :: t) hc.2 (by simp)
    rw [List.getLast_cons (by simp)]
    simp only [List.head_cons, List.length_cons] at ih ⊢
    push_cast at ih ⊢
    omega

/-- `scrapeRequestStarts` schedules one request per submission. -/
theorem scrapeRequestStarts_length :
    ∀ (work : List (Nat × Nat)) (now startT : Int),
      (scrapeRequestStarts now startT work).length = work.length
  | [], _, _ => rfl
  | (d, p) :: rest, now, startT => by
    simp [scrapeRequestStarts, scrapeRequestStarts_length rest]

/-- Specialization of `processBlocks_events_eq` to a git-backed repository:
a write/commit pair per block before the first empty one. -/
theorem processBlocks_events_true (repoPath userEmail : String)
    (s : AtCoderSubmission) (blocks : List String) :
    (processBlocks repoPath userEmail true s blocks).1 =
      (blocks.takeWhile (fun c => !(c == ""))).flatMap (fun code =>
        [Event.write (filepathJoin [directoryPath repoPath s, languageToFileName s.language]) code,
         Event.commit ⟨s.userID, userEmail, s.epochSecond, commitMessage s⟩]) := by
  rw [processBlocks_events_eq]
  simp

/-! ## Claim theorems -/

set_option maxRecDepth 40000 in
/-- C1: `fetchSubmissions` paginates with a `from_second` watermark starting
at 0, stops as soon as a page has fewer than 500 records, and otherwise
advances the watermark to the epoch second of the last record of the page;
for a mocked API returning pages of sizes [500, 500, 37] it returns exactly
1037 records in concatenation order, issues exactly 3 requests, and the
second and third requests' `from_second` (500 and 1000) equal the maximum
epoch second seen so far. -/
theorem fetchSubmissions_pagination :
    (∀ (api : Int → List AtCoderSubmission) (fuel : Nat),
      fetchSubmissions api fuel = fetchSubmissionsLoop api fuel 0) ∧
    (∀ (api : Int → List AtCoderSubmission) (fuel : Nat) (fromSecond : Int),
      (api fromSecond).length < submissionsPerPage →
      fetchSubmissionsLoop api (fuel + 1) fromSecond = some ([fromSecond], api fromSecond)) ∧
    (∀ (api : Int → List AtCoderSubmission) (fuel : Nat) (fromSecond : Int),
      ¬(api fromSecond).length < submissionsPerPage →
      fetchSubmissionsLoop api (fuel + 1) fromSecond =
        (fetchSubmissionsLoop api fuel
            ((api fromSecond).getLastD defaultSubmission).epochSecond).map
          (fun r => (fromSecond :: r.1, api fromSecond ++ r.2))) ∧
    fetchSubmissions mockApi 3 =
      some ([0, 500, 1000], ascPage 1 500 ++ (ascPage 501 500 ++ ascPage 1001 37)) ∧
    (ascPage 1 500 ++ (ascPage 501 500 ++ ascPage 1001 37)).length = 1037 ∧
    ((ascPage 1 500).map (fun s => s.epochSecond)).maximum = some 500 ∧
    ((ascPage 1 500 ++ ascPage 501 500).map (fun s => s.epochSecond)).maximum = some 1000 := by
  refine ⟨fun api fuel => rfl, ?_, ?_, by rfl, by rfl, by rfl, by rfl⟩
  · intro api fuel fromSecond h
    simp [fetchSubmissionsLoop, h]
  · intro api fuel fromSecond h
    simp only [fetchSubmissionsLoop, if_neg h]
    cases hr : fetchSubmissionsLoop api fuel
        ((api fromSecond).getLastD defaultSubmission).epochSecond with
    | none => simp
    | some r => cases r with
      | mk reqs rest => simp

set_option maxRecDepth 40000 in
/-- Witness for C1: the stop rule applied at the short page (37 records,
watermark 1000) and the advance rule applied at a full page (500 records,
watermark 500) of the mocked API. -/
theorem fetchSubmissions_pagination_witness :
    fetchSubmissionsLoop mockApi 1 1000 = some ([1000], mockApi 1000) ∧
    fetchSubmissionsLoop mockApi 2 500 =
      (fetchSubmissionsLoop mockApi 1
          ((mockApi 500).getLastD defaultSubmission).epochSecond).map
        (fun r => ((500 : Int) :: r.1, mockApi 500 ++ r.2)) :=
  ⟨fetchSubmissions_pagination.2.1 mockApi 0 1000 (by decide),
   fetchSubmissions_pagination.2.2.1 mockApi 1 500 (by decide)⟩

/-- C2 counterexample: `directoryPath` (via `filepath.Join`) produces no
trailing path separator, so for contest `abc100`, problem `abc100_a`,
submission ID 12345 the computed path is not the claimed
`root/abc100/abc100_a/12345/`. -/
theorem directoryPath_no_trailing_separator :
    directoryPath "root" sampleSubmission ≠ "root/abc100/abc100_a/12345/" := by
  decide

/-- C2 (amended): the archive path for contest `abc100`, problem
`abc100_a`, submission ID 12345 is exactly `root/abc100/abc100_a/12345`
(no trailing separator); `filterDirsExist` preserves the relative order of
survivors, keeps exactly the submissions whose archive directory does not
exist, and is idempotent when the filesystem is unchanged in between. -/
theorem filterDirsExist_spec (exist : String → Bool) (repoPath : String)
    (ss : List AtCoderSubmission) :
    directoryPath "root" sampleSubmission = "root/abc100/abc100_a/12345" ∧
    (filterDirsExist exist repoPath ss).Sublist ss ∧
    (∀ s ∈ filterDirsExist exist repoPath ss, exist (directoryPath repoPath s) = false) ∧
    (∀ s ∈ ss, exist (directoryPath repoPath s) = false →
      s ∈ filterDirsExist exist repoPath ss) ∧
    filterDirsExist exist repoPath (filterDirsExist exist repoPath ss) =
      filterDirsExist exist repoPath ss := by
  refine ⟨by decide, List.filter_sublist ss, ?_, ?_, ?_⟩
  · intro s hs
    have := (List.mem_filter.mp hs).2
    simpa using this
  · intro s hs he
    exact List.mem_filter.mpr ⟨hs, by simpa using he⟩
  · simp [filterDirsExist, List.filter_filter]

/-- Witness for C2: a submission whose directory is absent survives
`filterDirsExist`. -/
theorem filterDirsExist_spec_witness :
    sampleSubmission ∈ filterDirsExist (fun _ => false) "root" [sampleSubmission] :=
  (filterDirsExist_spec (fun _ => false) "root" [sampleSubmission]).2.2.2.1
    sampleSubmission (List.mem_singleton_self _) rfl

/-- C3: `filterNotAC` keeps exactly the submissions whose verdict is
`"AC"`, in input order (it is a sublist of the input containing every
`"AC"` record and nothing else, with the exact multiplicity). -/
theorem filterNotAC_spec (ss : List AtCoderSubmission) :
    (filterNotAC ss).Sublist ss ∧
    (∀ s ∈ filterNotAC ss, s.result = "AC") ∧
    (∀ s ∈ ss, s.result = "AC" → s ∈ filterNotAC ss) ∧
    (filterNotAC ss).length = ss.countP (fun s => s.result == "AC") := by
  refine ⟨List.filter_sublist ss, ?_, ?_, by rw [List.countP_eq_length_filter]; rfl⟩
  · intro s hs
    have := (List.mem_filter.mp hs).2
    simpa using this
  · intro s hs he
    exact List.mem_filter.mpr ⟨hs, by simpa using he⟩

/-- Witness for C3: an accepted submission survives `filterNotAC`. -/
theorem filterNotAC_spec_witness :
    mkSub 1 ∈ filterNotAC [mkSub 1] :=
  (filterNotAC_spec [mkSub 1]).2.2.1 (mkSub 1) (List.mem_singleton_self _) rfl

/-- C4: in the archive command the surviving submissions, after both
filters, are sorted ascending by submission epoch second before any
scraping or archiving occurs: the processed list is a permutation of the
doubly-filtered list, pairwise nondecreasing in `epochSecond`, and hence
the commit timestamps (which C6 shows equal each submission's
`epochSecond`) are produced in chronological order. -/
theorem archiveProcessingOrder_sorted (exist : String → Bool) (repoPath : String)
    (ss : List AtCoderSubmission) :
    (archiveProcessingOrder exist repoPath ss).Perm
      (filterDirsExist exist repoPath (filterNotAC ss)) ∧
    (archiveProcessingOrder exist repoPath ss).Pairwise
      (fun a b => a.epochSecond ≤ b.epochSecond) ∧
    ((archiveProcessingOrder exist repoPath ss).map
      (fun s => s.epochSecond)).Pairwise (· ≤ ·) := by
  have hpair : (archiveProcessingOrder exist repoPath ss).Pairwise
      (fun a b => a.epochSecond ≤ b.epochSecond) := by
    have h : (archiveProcessingOrder exist repoPath ss).Pairwise
        (fun a b : AtCoderSubmission => (decide (a.epochSecond ≤ b.epochSecond)) = true) :=
      List.sorted_mergeSort
        (fun a b c hab hbc => by
          simp only [decide_eq_true_eq] at *
          omega)
        (fun a b => by simp [Int.le_total])
        (filterDirsExist exist repoPath (filterNotAC ss))
    exact h.imp (fun hd => by simpa using hd)
  refine ⟨List.mergeSort_perm _ _, hpair, ?_⟩
  rw [List.pairwise_map]
  exact hpair

/-- C5 counterexample: on a page with a nonempty first block and an empty
second block, the loop aborts with the empty-content error but has already
written a file for that submission, contradicting the claim's "no file is
written for that submission". -/
theorem processBlocks_write_before_empty :
    ("" ∈ ["x", ""]) ∧
    (processBlocks "root" "mail" false defaultSubmission ["x", ""]).2 =
      some ArchiveError.emptyContent ∧
    (processBlocks "root" "mail" false defaultSubmission ["x", ""]).1.any
      Event.isWrite = true := by
  decide

/-- C5 (amended): if any extracted block of a submission page is empty, the
entire run aborts with the empty-content error (no silent skip: the
submission's remaining blocks and all later submissions are not
processed); nothing is written by the empty block or any later block, so
when the empty block is the first matched block no file at all is written
for that submission — though blocks preceding the empty one have already
been written. -/
theorem emptyContent_aborts (repoPath userEmail : String) (gitExists : Bool)
    (scrape : AtCoderSubmission → List String) (s : AtCoderSubmission)
    (rest : List AtCoderSubmission) (h : "" ∈ scrape s) :
    (processBlocks repoPath userEmail gitExists s (scrape s)).2 =
      some ArchiveError.emptyContent ∧
    (processBlocks repoPath userEmail gitExists s (scrape s)).1 =
      (processBlocks repoPath userEmail gitExists s
        ((scrape s).takeWhile (fun c => !(c == "")))).1 ∧
    ((scrape s).head? = some "" →
      (processBlocks repoPath userEmail gitExists s (scrape s)).1 = []) ∧
    archiveRun repoPath userEmail gitExists scrape (s :: rest) =
      ((processBlocks repoPath userEmail gitExists s (scrape s)).1,
        some ArchiveError.emptyContent) := by
  have herr : (processBlocks repoPath userEmail gitExists s (scrape s)).2 =
      some ArchiveError.emptyContent :=
    (processBlocks_err_iff repoPath userEmail gitExists s (scrape s)).mpr h
  refine ⟨herr, ?_, ?_, ?_⟩
  · rw [processBlocks_events_eq, processBlocks_events_eq,
      List.takeWhile_idem]
  · intro hhead
    cases hs : scrape s with
    | nil => simp [hs] at h
    | cons c cs =>
      rw [hs] at hhead
      have hc : c = "" := by simpa using hhead
      subst hc
      simp [processBlocks]
  · rw [archiveRun]
    rw [show (processBlocks repoPath userEmail gitExists s (scrape s)) =
        ((processBlocks repoPath userEmail gitExists s (scrape s)).1,
          some ArchiveError.emptyContent) from Prod.ext rfl herr]

/-- Witness for C5: a run whose single submission's page has a nonempty
block followed by an empty one aborts with the empty-content error, and a
page whose first block is empty writes nothing. -/
theorem emptyContent_aborts_witness :
    (processBlocks "r" "m" true defaultSubmission ["x", ""]).2 =
      some ArchiveError.emptyContent ∧
    (processBlocks "r" "m" true defaultSubmission [""]).1 = [] :=
  ⟨(emptyContent_aborts "r" "m" true (fun _ => ["x", ""]) defaultSubmission []
      (by decide)).1,
   (emptyContent_aborts "r" "m" true (fun _ => [""]) defaultSubmission []
      (by decide)).2.2.1 rfl⟩

/-- C6: for every archived file a commit is created exactly when the
repository root contains a `.git` directory (a file-presence probe, passed
here as the `gitExists` flag computed from it): without it no commit event
ever occurs, and with it each written file is immediately followed by its
own commit whose author name is the submission's user ID, author email the
configured commit email, timestamp the submission's acceptance epoch
second, and message the `✅ contestID problemID <time>ms <url>` string —
one commit per written file. -/
theorem commit_policy (repoPath userEmail : String) (s : AtCoderSubmission)
    (blocks : List String) :
    ((processBlocks repoPath userEmail false s blocks).1.filter Event.isCommit = []) ∧
    ((processBlocks repoPath userEmail true s blocks).1 =
      (blocks.takeWhile (fun c => !(c == ""))).flatMap (fun code =>
        [Event.write (filepathJoin [directoryPath repoPath s, languageToFileName s.language]) code,
         Event.commit ⟨s.userID, userEmail, s.epochSecond, commitMessage s⟩])) ∧
    (((processBlocks repoPath userEmail true s blocks).1.filter Event.isCommit).length =
      ((processBlocks repoPath userEmail true s blocks).1.filter Event.isWrite).length) := by
  refine ⟨?_, ?_, ?_⟩
  · rw [processBlocks_events_eq]
    induction blocks.takeWhile (fun c => !(c == "")) with
    | nil => rfl
    | cons c cs ih => simpa [Event.isCommit] using ih
  · rw [processBlocks_events_true]
  · rw [processBlocks_events_true, commits_of_write_pairs,
      writes_of_write_pairs, List.length_map]

/-- C7: consecutive submission-page requests of the scrape phase start at
least 1500 ms (1.5 s) apart — the code even waits 1500 ms from the end of
the previous request, which implies the claimed spacing from its start —
and therefore a scrape phase of N requests spans at least
`1500 * (N - 1)` ms, i.e. `1.5 * (N - 1)` seconds of wall-clock time,
whatever the request and processing durations are. -/
theorem scrape_rate_limit (t0 : Int) (work : List (Nat × Nat)) :
    (scrapeSchedule t0 work).length = work.length ∧
    List.Chain' (fun a b => a + 1500 ≤ b) (scrapeSchedule t0 work) ∧
    ∀ (h : scrapeSchedule t0 work ≠ []),
      (scrapeSchedule t0 work).head h +
          1500 * (((scrapeSchedule t0 work).length : Int) - 1) ≤
        (scrapeSchedule t0 work).getLast h :=
  ⟨scrapeRequestStarts_length work t0 t0,
   scrapeRequestStarts_chain work t0 t0,
   fun h => chain_head_getLast _ (scrapeRequestStarts_chain work t0 t0) h⟩

/-- Witness for C7: two instantaneous requests scheduled from time 0 are
1500 ms apart, so the last starts no earlier than 3000. -/
theorem scrape_rate_limit_witness :
    3000 ≤ (scrapeSchedule 0 [(0, 0), (0, 0)]).getLast (by decide) := by
  have h := (scrape_rate_limit 0 [(0, 0), (0, 0)]).2.2 (by decide)
  exact le_trans (by decide) h

/-- C8: the language-to-filename mapping truncates the label before any
parenthesis, tries the prefix table and then the exact table, so
`C++14 (GCC 5.4.1)` maps to `Main.cpp` and `Python3 (3.8.2)` to `Main.py`;
a label matching neither table maps to `Main.txt` (the Go code only logs
it; no error is returned). -/
theorem languageToFileName_spec :
    languageToFileName "C++14 (GCC 5.4.1)" = "Main.cpp" ∧
    languageToFileName "Python3 (3.8.2)" = "Main.py" ∧
    languageToFileName "Whitespace" = "Main.txt" ∧
    (∀ language : String,
      prefixTable.find?
          (fun pe => pe.1.data.isPrefixOf (trimChars (takeUntilParen language.data))) = none →
      nameTable.find?
          (fun ne => ne.1.data == trimChars (takeUntilParen language.data)) = none →
      languageToFileName language = "Main.txt") := by
  refine ⟨by decide, by decide, by decide, ?_⟩
  intro language h1 h2
  rw [languageToFileName]
  rw [h1, h2]
  rfl

/-- Witness for C8: the fallback rule applied to the unrecognized label
`Whitespace`. -/
theorem languageToFileName_spec_witness :
    languageToFileName "Whitespace" = "Main.txt" :=
  languageToFileName_spec.2.2.2 "Whitespace" (by decide) (by decide)

/-- C9 (code bug): on a stat outcome that is neither success nor
not-exist (e.g. a permission error), `dirExists` reaches `info.IsDir()`
with a nil `info` and panics (modelled as `none`) instead of surfacing an
error value, contradicting the propagation policy the claim states; the
two non-panicking outcomes return a boolean as the claim expects. -/
theorem dirExists_crashes_on_stat_error :
    dirExists StatResult.otherError = none ∧
    dirExists StatResult.notExist = some false ∧
    dirExists (StatResult.ok true) = some true ∧
    dirExists (StatResult.ok false) = some false := by
  decide

/-- C10: on a page with several code blocks (all nonempty), every block is
written to the same `directory/filename` path — the filename depends only
on the submission's language, not on the block index — so replaying the
run's events leaves only the last block's content on disk, and with a git
repository one commit is created per block, not per distinct file. -/
theorem multi_block_same_path (repoPath userEmail : String)
    (s : AtCoderSubmission) (blocks : List String) (fs : String → Option String)
    (h : ∀ c ∈ blocks, c ≠ "") (hne : blocks ≠ []) :
    ((processBlocks repoPath userEmail true s blocks).1.filter Event.isWrite =
      blocks.map (Event.write
        (filepathJoin [directoryPath repoPath s, languageToFileName s.language]))) ∧
    (applyEvents fs (processBlocks repoPath userEmail true s blocks).1
        (filepathJoin [directoryPath repoPath s, languageToFileName s.language]) =
      some (blocks.getLast hne)) ∧
    (((processBlocks repoPath userEmail true s blocks).1.filter Event.isCommit).length =
      blocks.length) := by
  have htake : blocks.takeWhile (fun c => !(c == "")) = blocks := by
    rw [List.takeWhile_eq_self_iff]
    intro a ha
    simpa using h a ha
  have hev := processBlocks_events_true repoPath userEmail s blocks
  rw [htake] at hev
  refine ⟨?_, ?_, ?_⟩
  · rw [hev, writes_of_write_pairs]
  · rw [hev, applyEvents_write_pairs _ _ blocks fs hne]
  · rw [hev, commits_of_write_pairs]

/-- Witness for C10: a two-block page produces two commits. -/
theorem multi_block_same_path_witness :
    ((processBlocks "root" "mail" true defaultSubmission ["a", "b"]).1.filter
        Event.isCommit).length = 2 :=
  (multi_block_same_path "root" "mail" defaultSubmission ["a", "b"]
    (fun _ => none) (by decide) (by decide)).2.2
